import Mathlib

/-!
Shallow embedding of the Thrush scripting-language implementation
(lexer, parser, bytecode compiler, stack VM, object model) and proofs
about the claims of its specification.

Conventions of the embedding:
* Rust `Result::Err` values are `Outcome.err`.
* Rust panics (`todo!()`, `unwrap`, `expect`, `panic!`-style aborts,
  out-of-bounds indexing) are `Outcome.panicked`.
* Match arms that are absent from the source (the `match` in `Vm::run`
  is non-exhaustive: it has no arm for `Class`, `DefineGlobal`,
  `SetGlobal` or `LoadNil`, so the crate is rejected by the Rust
  compiler, error E0004) are `Outcome.unhandled`.
* Loops whose termination is not structural are modelled with an
  explicit fuel parameter; running out of fuel is `Outcome.fuelOut`, an
  artifact of the model that no theorem below relies on.
* Host-registered native callbacks (`fn(Rc<Instance>, Vec<Value>) -> Value`)
  are identified by a numeric id (`fid`); an explicit host environment maps
  the id to the value it returns.  Reference-counted sharing (`Rc`) is
  flattened: an instance value carries its class data and field list inline,
  which is faithful here because no instruction executed in these proofs
  mutates a method table or instance fields during a VM run.
-/

namespace Thrush

/-- Outcome of running a piece of Rust code: an ordinary value, an `Err`
value returned to the caller, a panic, an arm missing from a
non-exhaustive `match`, or fuel exhaustion of the model. -/
inductive Outcome (α : Type) where
  | ok (a : α)
  | err (e : String)
  | panicked (msg : String)
  | unhandled (msg : String)
  | fuelOut
  deriving Repr, DecidableEq

def Outcome.bind {α β : Type} : Outcome α → (α → Outcome β) → Outcome β
  | .ok a, f => f a
  | .err e, _ => .err e
  | .panicked m, _ => .panicked m
  | .unhandled m, _ => .unhandled m
  | .fuelOut, _ => .fuelOut

instance : Monad Outcome where
  pure := Outcome.ok
  bind := Outcome.bind

/-! ## Tokens (src/token.rs) -/

/-- `token::Keyword`. -/
inductive Keyword where
  | kwClass | kwFun | kwVar | kwSlf
  deriving Repr, DecidableEq

/-- `token::Lit`: literal payload of a token.  `f64` is modelled by
Lean's `Float` (IEEE 754 double, as in Rust). -/
inductive TLit where
  | integer (i : Int)
  | str (s : String)
  | float (f : Float)
  deriving Repr

/-- `token::TokenKind`. -/
inductive TokenKind where
  | plus | hypen | star | backSlash | modulo | dot | tilde | bang | comma
  | assign
  | lparen | rparen | lbracket | rbracket | lbrace | rbrace
  | literal (l : TLit)
  | ident (s : String)
  | keyword (k : Keyword)
  | newline
  | eof
  deriving Repr

/-- `token::Token`. -/
structure Token where
  kind : TokenKind
  deriving Repr

/-- `Token::new`. -/
def Token.new (kind : TokenKind) : Token := ⟨kind⟩

/-! ## AST

`parser.rs` and `compiler.rs` import `ast::{Ast, BinOp, Expr, Lit, Stmt}`,
but the `ast.rs` present in the tree is a stale historical snapshot that
defines none of `Stmt`, `Expr::Identifier`, `Expr::Call`, `Expr::Dot` and
uses different payload types.  The shapes below are reconstructed from the
constructor applications and patterns in `parser.rs` and `compiler.rs`
themselves (`Stmt::Class { name }`, `Stmt::VarDecl { id, init }`,
`Stmt::Expr`, `Expr::Literal`, `Expr::Identifier`, `Expr::BinExpr`,
`Expr::UnaryExpr { value, op }`, `Expr::Call { callee, args }`,
`Expr::Dot { object, property }`, `Lit::{Integer, Float, Char, Nil,
String}`, `BinOp::{Add, Sub, Mul, Div, Rem, Bang}`), which pin them down
completely. -/

/-- `ast::Lit` as used by `parser.rs`/`compiler.rs`. -/
inductive Lit where
  | integer (i : Int)
  | float (f : Float)
  | char (c : Char)
  | nil
  | str (s : String)
  deriving Repr

/-- `ast::BinOp` as used by `parser.rs`. -/
inductive BinOp where
  | add | sub | mul | div | rem | bang
  deriving Repr, DecidableEq

/-- `ast::Expr` as used by `parser.rs`/`compiler.rs`. -/
inductive Expr where
  | literal (l : Lit)
  | identifier (name : String)
  | binExpr (op : BinOp) (left right : Expr)
  | unaryExpr (op : BinOp) (value : Expr)
  | call (callee : Expr) (args : List Expr)
  | dot (object property : Expr)
  deriving Repr

/-- `ast::Stmt` as used by `parser.rs`/`compiler.rs`.  `Stmt::Class` is
rendered `classDecl` because `class` is a Lean keyword; `Stmt::Expr` is
rendered `exprStmt`. -/
inductive Stmt where
  | classDecl (name : String)
  | varDecl (id : String) (init : Expr)
  | exprStmt (e : Expr)
  deriving Repr

/-- `ast::Ast`. -/
structure Ast where
  nodes : List Stmt
  deriving Repr

/-! ## Parser (src/parser.rs) -/

/-- `parser::Precedence` (`repr(u8)`). -/
inductive Precedence where
  | none | sum | term | call | end_
  deriving Repr, DecidableEq

/-- The `u8` representation underlying `Precedence`'s derived
`PartialOrd`. -/
def Precedence.toNat : Precedence → Nat
  | .none => 0
  | .sum => 1
  | .term => 2
  | .call => 3
  | .end_ => 4

/-- Derived `PartialOrd` comparison on `Precedence` (by `u8` value). -/
def Precedence.ge (p q : Precedence) : Bool := q.toNat ≤ p.toNat

/-- Derived `PartialEq` on `Precedence`. -/
def Precedence.eq (p q : Precedence) : Bool := p.toNat = q.toNat

/-- `Precedence::left`: `transmute(*self as u8 + 1)`.  In the source it
is only ever applied to `None`, `Sum` and `Term`; applying it to `End`
would transmute the out-of-range value 5, which is undefined behaviour,
so that arm is modelled (unreachably) as `end_`. -/
def Precedence.left : Precedence → Precedence
  | .none => .sum
  | .sum => .term
  | .term => .call
  | .call => .end_
  | .end_ => .end_

/-- `parser::Parser`. -/
structure Parser where
  tokens : List Token
  current : Token
  pos : Nat
  deriving Repr

/-- `Parser::new`. -/
def Parser.new (tokens : List Token) : Parser :=
  { tokens := tokens, current := Token.new .eof, pos := 0 }

/-- `Parser::consume`: `if self.pos + 1 <= self.tokens.len() - 1` then
advance and reload `current`.  The subtraction is `usize` arithmetic; for
an empty token vector Rust would wrap around and then panic on the index,
but `Lexer::tokenize` always produces at least an `Eof` token, and every
token list used below is non-empty, so the truncated `Nat` subtraction
used here agrees with the source on all reachable inputs.  The `getD`
default is unreachable: the guard makes `pos + 1` in bounds. -/
def Parser.consume (p : Parser) : Parser :=
  if p.pos + 1 ≤ p.tokens.length - 1 then
    { p with pos := p.pos + 1, current := p.tokens.getD (p.pos + 1) (Token.new .eof) }
  else
    p

/-- `Parser::prec`: precedence rule for the current token;
`todo!("No rule implemented ...")` on every other kind. -/
def Parser.prec (p : Parser) : Outcome Precedence :=
  match p.current.kind with
  | .plus | .hypen => .ok .sum
  | .star | .backSlash | .modulo => .ok .term
  | .lparen => .ok .call
  | .eof | .rparen => .ok .end_
  | _ => .panicked "No rule implemented for this token kind"

/-- `Parser::identifier`. -/
def Parser.identifier (p : Parser) : Outcome (String × Parser) :=
  match p.current.kind with
  | .ident name => .ok (name, p.consume)
  | _ => .err "expected a identifier"

mutual

/-- `Parser::literal`: parse a primary term.  The prefix-operator arms
(`Hypen`, `Plus`, `Bang`) parse their operand with
`self.expression(Precedence::End)`. -/
def Parser.literal (fuel : Nat) (p : Parser) : Outcome (Expr × Parser) :=
  match fuel with
  | 0 => .fuelOut
  | fuel + 1 =>
    match p.current.kind with
    | .literal l =>
      match l with
      | .integer i => .ok (.literal (.integer i), p.consume)
      | .str _ => .panicked "not yet implemented"
      | .float _ => .panicked "not yet implemented"
    | .hypen => do
      let (v, p) ← Parser.expression fuel .end_ p.consume
      .ok (.unaryExpr .sub v, p)
    | .plus => do
      let (v, p) ← Parser.expression fuel .end_ p.consume
      .ok (.unaryExpr .add v, p)
    | .bang => do
      let (v, p) ← Parser.expression fuel .end_ p.consume
      .ok (.unaryExpr .bang v, p)
    | .lparen => do
      let (node, p) ← Parser.expression fuel (Precedence.none.left) p.consume
      .ok (node, p.consume)
    | .ident _ => do
      let (name, p) ← p.identifier
      .ok (.identifier name, p)
    | _ => .err "unexpected token"

/-- `Parser::expression`: parse one primary term, then the
precedence-climbing loop `while self.prec() >= prec && self.prec() !=
Precedence::End`. -/
def Parser.expression (fuel : Nat) (prec : Precedence) (p : Parser) :
    Outcome (Expr × Parser) :=
  match fuel with
  | 0 => .fuelOut
  | fuel + 1 => do
    let (left, p) ← Parser.literal fuel p
    Parser.exprLoop fuel prec left p

/-- The `while` loop of `Parser::expression`.  Rust evaluates
`self.prec()` in the condition, so a `todo!` panic there propagates even
when the loop body would not run. -/
def Parser.exprLoop (fuel : Nat) (prec : Precedence) (left : Expr) (p : Parser) :
    Outcome (Expr × Parser) :=
  match fuel with
  | 0 => .fuelOut
  | fuel + 1 => do
    let cur ← p.prec
    if cur.ge prec ∧ ¬ cur.eq .end_ then do
      let (left, p) ← Parser.infixExpr fuel left p
      Parser.exprLoop fuel prec left p
    else
      .ok (left, p)

/-- `Parser::infix_expr`: fold one infix operator into `left`.  The
fall-through arm leaves `left` unchanged. -/
def Parser.infixExpr (fuel : Nat) (left : Expr) (p : Parser) :
    Outcome (Expr × Parser) :=
  match fuel with
  | 0 => .fuelOut
  | fuel + 1 =>
    match p.current.kind with
    | .plus => do
      let (right, p) ← Parser.expression fuel (Precedence.sum.left) p.consume
      .ok (.binExpr .add left right, p)
    | .hypen => do
      let (right, p) ← Parser.expression fuel (Precedence.sum.left) p.consume
      .ok (.binExpr .sub left right, p)
    | .star => do
      let (right, p) ← Parser.expression fuel (Precedence.term.left) p.consume
      .ok (.binExpr .mul left right, p)
    | .backSlash => do
      let (right, p) ← Parser.expression fuel (Precedence.term.left) p.consume
      .ok (.binExpr .div left right, p)
    | .modulo => do
      let (right, p) ← Parser.expression fuel (Precedence.term.left) p.consume
      .ok (.binExpr .rem left right, p)
    | .lparen =>
      .ok (.call left [], p.consume.consume)
    | _ => .ok (left, p)

end

/-- `Parser::expr`: parse an expression statement and its terminator.
The fall-through arm is `panic!("Unexpected token")`. -/
def Parser.exprStmt (fuel : Nat) (p : Parser) : Outcome (Stmt × Parser) := do
  let (expr, p) ← Parser.expression fuel .none p
  match p.current.kind with
  | .newline => .ok (.exprStmt expr, p.consume)
  | .eof | .rbrace => .ok (.exprStmt expr, p)
  | _ => .panicked "Unexpected token"

/-- `Parser::class`: consume the `class` keyword, parse the name, then
consume two further tokens without inspecting them (the `{` and `}`
positions). -/
def Parser.classStmt (p : Parser) : Outcome (Stmt × Parser) := do
  let p := p.consume
  let (name, p) ← p.identifier
  .ok (.classDecl name, p.consume.consume)

/-- `Parser::statement`: a leading `class` keyword begins a class
declaration; any other keyword is `todo!()`; anything else is an
expression statement. -/
def Parser.statement (fuel : Nat) (p : Parser) : Outcome (Stmt × Parser) :=
  match p.current.kind with
  | .keyword k =>
    match k with
    | .kwClass => p.classStmt
    | _ => .panicked "not yet implemented"
  | _ => Parser.exprStmt fuel p

/-- The `while self.current.kind != TokenKind::Eof` loop of
`Parser::parse`. -/
def Parser.parseLoop (fuel : Nat) (nodes : List Stmt) (p : Parser) :
    Outcome Ast :=
  match fuel with
  | 0 => .fuelOut
  | fuel + 1 =>
    match p.current.kind with
    | .eof => .ok ⟨nodes⟩
    | _ => do
      let (stmt, p) ← Parser.statement fuel p
      Parser.parseLoop fuel (nodes ++ [stmt]) p

/-- `Parser::parse`: reload `current` from `tokens[pos]` (an index that
panics on an empty vector), then run the statement loop.  The fuel is a
generous function of the token count. -/
def Parser.parse (p : Parser) : Outcome Ast :=
  match p.tokens.get? p.pos with
  | Option.none => .panicked "index out of bounds"
  | some t =>
    Parser.parseLoop (p.tokens.length * 8 + 64) [] { p with current := t }

/-- `Parser::parse_ast`. -/
def Parser.parseAst (tokens : List Token) : Outcome Ast :=
  (Parser.new tokens).parse

/-! ## Lexer (src/lexer.rs)

The reader is modelled at character granularity (the source works on
byte indices of a UTF-8 `&str`; the two coincide on the ASCII inputs of
every script considered here). -/

/-- `lexer::StringReader`. -/
structure StringReader where
  src : List Char
  current : Nat
  previous : Nat
  deriving Repr

/-- `StringReader::new`. -/
def StringReader.new (src : List Char) : StringReader := ⟨src, 0, 0⟩

/-- `StringReader::remaining`. -/
def StringReader.remaining (r : StringReader) : List Char := r.src.drop r.current

/-- `StringReader::peek`. -/
def StringReader.peek (r : StringReader) : Option Char := r.remaining.head?

/-- `StringReader::advance`. -/
def StringReader.advance (r : StringReader) : Option Char × StringReader :=
  match r.remaining.head? with
  | Option.none => (Option.none, r)
  | some c => (some c, { r with current := r.current + 1 })

/-- `StringReader::next_token`: return the slice `previous..current` and
set `previous := current`. -/
def StringReader.nextSlice (r : StringReader) : String × StringReader :=
  (String.mk ((r.src.drop r.previous).take (r.current - r.previous)),
   { r with previous := r.current })

/-- `lexer::is_numeric` on a one-character slice. -/
def isNumericChar (c : Char) : Bool := c.isDigit

/-- `lexer::is_whitespace` on a one-character slice
(`u8::is_ascii_whitespace`: space, tab, newline, carriage return, form
feed). -/
def isWhitespaceChar (c : Char) : Bool :=
  c = ' ' || c = '\t' || c = '\n' || c = '\r' || c = '\x0c'

/-- `Lexer::make_token`: build the token and set `previous := current`. -/
def Lexer.makeToken (kind : TokenKind) (r : StringReader) :
    Token × StringReader :=
  (Token.new kind, { r with previous := r.current })

/-- `Lexer::skip_whitespace`. -/
def Lexer.skipWhitespace (fuel : Nat) (r : StringReader) : Outcome StringReader :=
  match fuel with
  | 0 => .fuelOut
  | fuel + 1 =>
    match r.peek with
    | some c =>
      if isWhitespaceChar c then Lexer.skipWhitespace fuel (r.advance).2
      else .ok { r with previous := r.current }
    | Option.none => .ok { r with previous := r.current }

/-- `str::parse::<i64>` followed by `.unwrap()`: the collected slice is a
non-empty run of ASCII digits, so the only failure is overflow past
`i64::MAX`. -/
def parseI64 (s : String) : Outcome Int :=
  if s.length = 0 || !(s.toList.all Char.isDigit) then
    .panicked "invalid digit found in string"
  else
    let n := s.toList.foldl (fun acc c => acc * 10 + (c.toNat - '0'.toNat)) 0
    if n < 2 ^ 63 then .ok (Int.ofNat n) else .panicked "number too large"

/-- `Lexer::number`: extend the current slice over trailing digits, then
parse it (the first digit was already consumed by `next_token`). -/
def Lexer.number (fuel : Nat) (r : StringReader) : Outcome (Token × StringReader) :=
  match fuel with
  | 0 => .fuelOut
  | fuel + 1 =>
    match r.peek with
    | some c =>
      if isNumericChar c then Lexer.number fuel (r.advance).2
      else do
        let (num, r) := r.nextSlice
        let v ← parseI64 num
        .ok (Token.new (.literal (.integer v)), r)
    | Option.none => do
      let (num, r) := r.nextSlice
      let v ← parseI64 num
      .ok (Token.new (.literal (.integer v)), r)

/-- `Lexer::next_token`: advance one character and classify it.  Letters
and every other unlisted character hit the `todo!()` arm. -/
def Lexer.nextToken (fuel : Nat) (r : StringReader) : Outcome (Token × StringReader) :=
  match fuel with
  | 0 => .fuelOut
  | fuel + 1 =>
    match r.advance with
    | (Option.none, r) => .ok (Token.new .eof, r)
    | (some c, r) =>
      match c with
      | '+' => .ok (Lexer.makeToken .plus r)
      | '-' => .ok (Lexer.makeToken .hypen r)
      | '*' => .ok (Lexer.makeToken .star r)
      | '/' => .ok (Lexer.makeToken .backSlash r)
      | '%' => .ok (Lexer.makeToken .modulo r)
      | '!' => .ok (Lexer.makeToken .bang r)
      | '~' => .ok (Lexer.makeToken .tilde r)
      | '(' => .ok (Lexer.makeToken .lparen r)
      | ')' => .ok (Lexer.makeToken .rparen r)
      | '[' => .ok (Lexer.makeToken .lbracket r)
      | ']' => .ok (Lexer.makeToken .rbracket r)
      | c =>
        if isNumericChar c then Lexer.number fuel r
        else if isWhitespaceChar c then do
          let r ← Lexer.skipWhitespace fuel r
          Lexer.nextToken fuel r
        else .panicked "not yet implemented"

/-- The token-collection loop of `Lexer::tokenize`: push tokens while
input remains, then push one final token (the `Eof`) and stop. -/
def Lexer.tokenizeLoop (fuel : Nat) (r : StringReader) (acc : List Token) :
    Outcome (List Token) :=
  match fuel with
  | 0 => .fuelOut
  | fuel + 1 =>
    match r.peek with
    | Option.none => do
      let (t, _) ← Lexer.nextToken (r.src.length + 2) r
      .ok (acc ++ [t])
    | some _ => do
      let (t, r) ← Lexer.nextToken (r.src.length + 2) r
      Lexer.tokenizeLoop fuel r (acc ++ [t])

/-- `Lexer::tokenize`. -/
def Lexer.tokenize (src : String) : Outcome (List Token) :=
  Lexer.tokenizeLoop (src.length + 2) (StringReader.new src.toList) []

/-! ## Value and object model (src/value.rs) -/

/-- `value::InstanceFun`: a named host-supplied native callback.  The
function pointer is identified by a numeric id `fid`; an explicit host
environment (`Host`) gives its behaviour. -/
structure InstanceFun where
  name : String
  fid : Nat
  deriving Repr, DecidableEq

/-- `value::Class`: a name and a method table.  The `RefCell<HashMap>`
is modelled as an association list; `lookupMethod` returns the most
recent binding for a key, matching `HashMap` lookup after inserts. -/
structure ClassDat where
  name : String
  methods : List (String × InstanceFun)
  deriving Repr, DecidableEq

/-- `Class::new`. -/
def ClassDat.new (name : String) : ClassDat := ⟨name, []⟩

/-- `HashMap` lookup on the association-list model. -/
def lookupMethod (l : List (String × InstanceFun)) (name : String) :
    Option InstanceFun :=
  (l.find? (fun kv => kv.1 = name)).map (·.2)

/-- `Class::add_method`: `HashMap::insert` of
`InstanceFun::new(name, fun)`, replacing any previous binding for
`name`. -/
def ClassDat.addMethod (c : ClassDat) (name : String) (fid : Nat) : ClassDat :=
  { c with methods :=
      (name, InstanceFun.mk name fid) :: c.methods.filter (fun kv => kv.1 ≠ name) }

/-- `value::Value`.  `Instance(Rc<Instance>)` is flattened to the
instance's class data and field list; `Method(Rc<BoundMethod>)` to the
receiver's class data, field list and resolved function. -/
inductive Value where
  | bool (b : Bool)
  | float (f : Float)
  | integer (i : Int)
  | str (s : String)
  | instanceV (cls : ClassDat) (fields : List Value)
  | classV (cls : ClassDat)
  | methodV (receiverCls : ClassDat) (receiverFields : List Value)
      (function : InstanceFun)
  | nil
  deriving Repr

/-- `Display for Value`. -/
def Value.display : Value → String
  | .bool b => toString b
  | .float f => toString f
  | .integer i => toString i
  | .str s => s
  | .instanceV cls _ => "<instance " ++ cls.name ++ ">"
  | .classV cls => "<Class " ++ cls.name ++ ">"
  | .methodV rc _ fn => "<method " ++ rc.name ++ "." ++ fn.name ++ ">"
  | .nil => "nil"

/-- `Instance::bind`: borrow the receiver's class's method table, look
the name up, `.unwrap()` the result (panic when absent), and pair the
receiver with the resolved method (`BoundMethod::new`). -/
def Instance.bind (cls : ClassDat) (fields : List Value) (name : String) :
    Outcome (ClassDat × List Value × InstanceFun) :=
  match lookupMethod cls.methods name with
  | some m => .ok (cls, fields, m)
  | Option.none => .panicked "called Option::unwrap on a None value"

/-- The host environment interpreting function ids: given the id, the
receiver's class and fields, and the argument list, produce the returned
`Value`. -/
def Host : Type := Nat → ClassDat → List Value → List Value → Value

/-- `Callable::call` for `BoundMethod`: apply the captured function to
the captured receiver and the arguments. -/
def BoundMethod.call (host : Host) (b : ClassDat × List Value × InstanceFun)
    (args : List Value) : Value :=
  host b.2.2.fid b.1 b.2.1 args

/-- `Instance::invoke`: bind the name, then call the bound method with
an empty argument list. -/
def Instance.invoke (host : Host) (cls : ClassDat) (fields : List Value)
    (name : String) : Outcome Value := do
  let b ← Instance.bind cls fields name
  .ok (BoundMethod.call host b [])

/-! ## Instructions and chunks (src/instruction.rs, src/chunk.rs) -/

/-- `instruction::InstanceValue`. -/
inductive InstanceValue where
  | bool (b : Bool)
  | integer (i : Int)
  | float (f : Float)
  deriving Repr

/-- `InstanceValue::into_value`. -/
def InstanceValue.intoValue : InstanceValue → Value
  | .bool b => .bool b
  | .integer i => .integer i
  | .float f => .float f

/-- `instruction::Instruction`.  `Class { index }` is rendered `classI`
because `class` is a Lean keyword. -/
inductive Instruction where
  | push (value : InstanceValue)
  | pop
  | classI (index : Nat)
  | call
  | loadNil
  | getProperty (index : Nat)
  | defineGlobal (index : Nat)
  | setGlobal (index : Nat)
  | getGlobal (index : Nat)
  | halt
  deriving Repr

/-- `Instruction::integer`. -/
def Instruction.integer (v : Int) : Instruction := .push (.integer v)

/-- `chunk::Chunk`. -/
structure Chunk where
  instructions : List Instruction
  /-- The `variables` field of the source (`variables` is reserved in Lean). -/
  vars : List String
  deriving Repr

/-- `Chunk::new`. -/
def Chunk.new : Chunk := ⟨[], []⟩

/-- `Chunk::add_variable`: push the name and return its index (the
pre-push length). -/
def Chunk.addVariable (c : Chunk) (s : String) : Nat × Chunk :=
  (c.vars.length, { c with vars := c.vars ++ [s] })

/-! ## Compiler (src/compiler.rs)

`Compiler` threads a chunk being built (its `_state` field is unused by
the source).  `todo!()` arms (`UnaryExpr`, float/char/string literals)
are panics. -/

/-- `Compiler::emit_inst`. -/
def Compiler.emitInst (c : Chunk) (inst : Instruction) : Chunk :=
  { c with instructions := c.instructions ++ [inst] }

/-- `Compiler::expr` together with the leaf helpers `literal`,
`integer`, `nil`, `identifier`, `binary_expr`, `dot_expr`, `call`. -/
def Compiler.compileExpr (c : Chunk) : Expr → Outcome Chunk
  | .dot object property => do
    let c ← Compiler.compileExpr c object
    match property with
    | .identifier name =>
      let (index, c) := c.addVariable name
      .ok (Compiler.emitInst c (.getProperty index))
    | _ => .ok c
  | .literal l =>
    match l with
    | .integer v => .ok (Compiler.emitInst c (Instruction.integer v))
    | .nil => .ok (Compiler.emitInst c .loadNil)
    | _ => .panicked "not yet implemented"
  | .binExpr _ left right => do
    let c ← Compiler.compileExpr c left
    let c ← Compiler.compileExpr c right
    .ok (Compiler.emitInst c .call)
  | .identifier name =>
    let (index, c) := c.addVariable name
    .ok (Compiler.emitInst c (.getGlobal index))
  | .call callee _ => do
    let c ← Compiler.compileExpr c callee
    .ok (Compiler.emitInst c .call)
  | .unaryExpr _ _ => .panicked "not yet implemented"

/-- One iteration of the statement loop of `Compiler::run`
(`Compiler::class`, `Compiler::var_declartion`,
`Compiler::expression`). -/
def Compiler.compileStmt (c : Chunk) : Stmt → Outcome Chunk
  | .classDecl name =>
    let (index, c) := c.addVariable name
    .ok (Compiler.emitInst (Compiler.emitInst c (.classI index)) (.defineGlobal index))
  | .varDecl id init => do
    let c ← Compiler.compileExpr c init
    let (index, c) := c.addVariable id
    .ok (Compiler.emitInst c (.defineGlobal index))
  | .exprStmt e => do
    let c ← Compiler.compileExpr c e
    .ok (Compiler.emitInst c .pop)

/-- The statement loop of `Compiler::run`. -/
def Compiler.runStmts (c : Chunk) : List Stmt → Outcome Chunk
  | [] => .ok c
  | s :: rest => do
    let c ← Compiler.compileStmt c s
    Compiler.runStmts c rest

/-- `Compiler::run` from a fresh `Compiler::new`: compile every
statement, then `emit_return` (a single trailing `Halt`). -/
def Compiler.run (ast : Ast) : Outcome Chunk := do
  let c ← Compiler.runStmts Chunk.new ast.nodes
  .ok (Compiler.emitInst c .halt)

/-! ## Global state (src/scope.rs) -/

/-- `scope::State`: the global table, a `HashMap<String, Value>`
modelled as an association list where the head binding for a key
wins. -/
structure State where
  globals : List (String × Value)
  deriving Repr

/-- `State::new`. -/
def State.new : State := ⟨[]⟩

/-- `HashMap` lookup on the global table. -/
def lookupGlobal (l : List (String × Value)) (name : String) : Option Value :=
  (l.find? (fun kv => kv.1 = name)).map (·.2)

/-- `State::add` (also `HashMap::insert`: last write wins). -/
def State.add (st : State) (name : String) (v : Value) : State :=
  ⟨(name, v) :: st.globals.filter (fun kv => kv.1 ≠ name)⟩

/-- `State::get::<Value>`: `self.globals.get(name).expect("cannot find
name in this scope.")` — a missing name panics; a present one is
returned (`FromValue for Value` always succeeds with a clone). -/
def State.get (st : State) (name : String) : Outcome Value :=
  match lookupGlobal st.globals name with
  | some v => .ok v
  | Option.none => .panicked "cannot find name in this scope."

/-! ## Virtual machine (src/vm.rs) -/

/-- The VM's mutable state during `run`: the operand stack
(`vm::Stack`) and the global `State`. -/
structure VmSt where
  stack : List Value
  state : State
  deriving Repr

/-- `Stack::pop`: `Err` (not a panic) when the stack is empty. -/
def Stack.pop (s : List Value) : Outcome (Value × List Value) :=
  match s with
  | [] => .err "stack should not be empty"
  | v :: rest => .ok (v, rest)

/-- `Vm::op_push`. -/
def Vm.opPush (s : VmSt) (value : InstanceValue) : VmSt :=
  { s with stack := value.intoValue :: s.stack }

/-- `Vm::op_get_prop`: pop; when the popped value is an `Instance`,
index the name table (panicking if out of bounds), bind the method
(panicking inside `Instance::bind` when the class lacks it) and push the
`BoundMethod`; when the popped value is anything else, the `if let`
simply falls through and the instruction returns `Ok` having pushed
nothing. -/
def Vm.opGetProp (chunk : Chunk) (s : VmSt) (index : Nat) : Outcome VmSt := do
  let (v, rest) ← Stack.pop s.stack
  match v with
  | .instanceV cls fields =>
    match chunk.vars.get? index with
    | Option.none => .panicked "index out of bounds"
    | some name => do
      let (rc, rf, fn) ← Instance.bind cls fields name
      .ok { s with stack := .methodV rc rf fn :: rest }
  | _ => .ok { s with stack := rest }

/-- `Vm::op_call`: pop; a `Class` constructs and pushes a fresh empty
`Instance`; a `Method` is invoked with an empty argument list and its
result pushed; anything else is the `NotCallable` error. -/
def Vm.opCall (host : Host) (s : VmSt) : Outcome VmSt := do
  let (v, rest) ← Stack.pop s.stack
  match v with
  | .classV cls => .ok { s with stack := .instanceV cls [] :: rest }
  | .methodV rc rf fn =>
    .ok { s with stack := BoundMethod.call host (rc, rf, fn) [] :: rest }
  | value => .err ("'" ++ value.display ++ "' is not callable")

/-- `Vm::run`: fetch-decode-execute from instruction pointer `ip`.
Fetching past the end of the instruction vector is an index panic.  The
`match` in the source handles only `Push`, `Pop`, `Call`, `GetProperty`,
`GetGlobal` and `Halt`; the remaining four instruction kinds have no arm
(the `match` is non-exhaustive — rustc error E0004 — so the crate does
not compile), modelled as `Outcome.unhandled`. -/
def Vm.run (host : Host) (chunk : Chunk) (fuel : Nat) (ip : Nat) (s : VmSt) :
    Outcome VmSt :=
  match fuel with
  | 0 => .fuelOut
  | fuel + 1 =>
    match chunk.instructions.get? ip with
    | Option.none => .panicked "index out of bounds"
    | some inst =>
      match inst with
      | .push value => Vm.run host chunk fuel (ip + 1) (Vm.opPush s value)
      | .pop => do
        let (_, rest) ← Stack.pop s.stack
        Vm.run host chunk fuel (ip + 1) { s with stack := rest }
      | .call => do
        let s ← Vm.opCall host s
        Vm.run host chunk fuel (ip + 1) s
      | .getProperty index => do
        let s ← Vm.opGetProp chunk s index
        Vm.run host chunk fuel (ip + 1) s
      | .getGlobal index =>
        match chunk.vars.get? index with
        | Option.none => .panicked "index out of bounds"
        | some name => do
          let v ← State.get s.state name
          Vm.run host chunk fuel (ip + 1) { s with stack := v :: s.stack }
      | .halt => .ok s
      | .classI _ => .unhandled "Class: no arm in the match of Vm::run"
      | .defineGlobal _ => .unhandled "DefineGlobal: no arm in the match of Vm::run"
      | .setGlobal _ => .unhandled "SetGlobal: no arm in the match of Vm::run"
      | .loadNil => .unhandled "LoadNil: no arm in the match of Vm::run"

/-- `Vm::execute`: run from `ip = 0`.  The fuel bound
`instructions.length + 1` covers every possible run, because each step
increments `ip` and fetching at `ip = length` already ends the run with
an index panic. -/
def Vm.execute (host : Host) (chunk : Chunk) (s : VmSt) : Outcome VmSt :=
  Vm.run host chunk (chunk.instructions.length + 1) 0 s

/-! ## Embedding surface (src/lib.rs) -/

/-- `Thrush::_exec` (the body of `exec`): tokenize, parse (`?` returns
parse errors to the caller), compile, then `self.vm.execute(..).unwrap()`
— a VM error value is *unwrapped*, i.e. turned into a panic.  On success
`vm.reset()` clears the stack and instruction pointer but keeps the
global table, which is returned as the resulting state. -/
def exec (host : Host) (st : State) (script : String) : Outcome State := do
  let tokens ← Lexer.tokenize script
  let ast ← Parser.parseAst tokens
  let chunk ← Compiler.run ast
  match Vm.execute host chunk ⟨[], st⟩ with
  | .ok s => .ok s.state
  | .err e => .panicked e
  | .panicked m => .panicked m
  | .unhandled m => .unhandled m
  | .fuelOut => .fuelOut

/-- A host environment under which every native callback returns `Nil`;
used to instantiate theorems at concrete inputs. -/
def trivialHost : Host := fun _ _ _ _ => Value.nil

/-! ## Analysis definitions

These state properties *about* the embedded program; they are not
translations of source functions. -/

/-- Simulated (static) net stack effect of one instruction, read off the
corresponding `Vm::run` arm: `Call` pops one value and pushes one result
(net 0); `GetProperty` pops one and (in its intended case) pushes one
(net 0).  `Class`, `DefineGlobal`, `SetGlobal` and `LoadNil` have no VM
arm; their effects are taken from their `instruction.rs` doc comments
(`SetGlobal` is never emitted by the compiler, so its value is
irrelevant below). -/
def Instruction.stackEffect : Instruction → Int
  | .push _ => 1
  | .pop => -1
  | .classI _ => 1
  | .call => 0
  | .loadNil => 1
  | .getProperty _ => 0
  | .defineGlobal _ => -1
  | .setGlobal _ => 0
  | .getGlobal _ => 1
  | .halt => 0

/-- Net simulated stack effect of an instruction sequence. -/
def netEffect (code : List Instruction) : Int :=
  (code.map Instruction.stackEffect).sum

/-- Whether an instruction is `Halt`. -/
def Instruction.isHalt : Instruction → Bool
  | .halt => true
  | _ => false

/-- Whether every name-table index carried by an instruction is below
`n`. -/
def Instruction.indexOk (n : Nat) : Instruction → Bool
  | .classI i => i < n
  | .getProperty i => i < n
  | .defineGlobal i => i < n
  | .setGlobal i => i < n
  | .getGlobal i => i < n
  | _ => true

/-- Number of literal/identifier leaves of an expression, counting only
positions the compiler lowers to a push-like instruction (`Call`
arguments are never compiled; a `Dot` property is a name, not a
value). -/
def Expr.leafCount : Expr → Nat
  | .literal _ => 1
  | .identifier _ => 1
  | .binExpr _ l r => l.leafCount + r.leafCount
  | .unaryExpr _ v => v.leafCount
  | .call c _ => c.leafCount
  | .dot o _ => o.leafCount

/-- The actual net simulated stack effect of one compiled top-level
statement. -/
def Stmt.netSpec : Stmt → Int
  | .classDecl _ => 0
  | .varDecl _ init => (init.leafCount : Int) - 1
  | .exprStmt e => (e.leafCount : Int) - 1

/-- Whether a value carries the `Instance` tag. -/
def Value.isInstance : Value → Bool
  | .instanceV _ _ => true
  | _ => false

/-- The unary operator produced by `Parser::literal` for a prefix
token. -/
def prefixRule : TokenKind → Option BinOp
  | .hypen => some .sub
  | .plus => some .add
  | .bang => some .bang
  | _ => Option.none

/-- The operator and precedence tier `Parser::infix_expr`/`Parser::prec`
associate with an infix token. -/
def infixRule : TokenKind → Option (BinOp × Precedence)
  | .plus => some (.add, .sum)
  | .hypen => some (.sub, .sum)
  | .star => some (.mul, .term)
  | .backSlash => some (.div, .term)
  | .modulo => some (.rem, .term)
  | _ => Option.none

/-- Size measure for the induction on expressions: the compiler recurses
only into the sub-expressions it actually compiles (`Call` arguments are
never compiled). -/
def Expr.csize : Expr → Nat
  | .literal _ => 1
  | .identifier _ => 1
  | .binExpr _ l r => l.csize + r.csize + 1
  | .unaryExpr _ _ => 1
  | .call c _ => c.csize + 1
  | .dot o _ => o.csize + 1

/-- `c'` extends `c` with some emitted halt-free, index-in-bounds code
of net simulated stack effect `eff`. -/
def emits (c c' : Chunk) (eff : Int) : Prop :=
  (∃ ext, c'.vars = c.vars ++ ext) ∧
  ∃ code, c'.instructions = c.instructions ++ code ∧
    netEffect code = eff ∧
    code.all (fun i => !i.isHalt) = true ∧
    code.all (Instruction.indexOk c'.vars.length) = true

/-- Concrete program (`class Bird {}` then `1`) used to instantiate the
C2 theorem. -/
def c2wAst : Ast := ⟨[Stmt.classDecl "Bird", Stmt.exprStmt (.literal (.integer 1))]⟩

/-- The chunk the compiler produces for `c2wAst`. -/
def c2wChunk : Chunk :=
  ⟨[.classI 0, .defineGlobal 0, .push (.integer 1), .pop, .halt], ["Bird"]⟩

/-- Concrete program (`var y = x`) used to instantiate the C9 theorem. -/
def c9wAst : Ast := ⟨[Stmt.varDecl "y" (.identifier "x")]⟩

/-- The chunk the compiler produces for `c9wAst`. -/
def c9wChunk : Chunk := ⟨[.getGlobal 0, .defineGlobal 1, .halt], ["x", "y"]⟩

/-- Concrete one-`GetGlobal` chunk used to instantiate the C3 theorem. -/
def c3wChunk : Chunk := ⟨[.getGlobal 0, .halt], ["x"]⟩

/-- A global table binding only `x`, used to instantiate the C3
theorem. -/
def c3wState : State := State.add State.new "x" (.integer 7)

/-- A class with one registered method, used to instantiate the C4 and
C8 theorems. -/
def c4wClass : ClassDat := ClassDat.addMethod (ClassDat.new "Bird") "sound" 5

/-! ## General lemmas -/

theorem Outcome.bind_ok {α β : Type} (a : α) (f : α → Outcome β) :
    (Outcome.ok a >>= f) = f a := rfl

theorem Outcome.bind_panicked {α β : Type} (m : String) (f : α → Outcome β) :
    ((Outcome.panicked m : Outcome α) >>= f) = .panicked m := rfl

theorem Outcome.bind_eq_ok {α β : Type} {x : Outcome α} {f : α → Outcome β} {b : β}
    (h : (x >>= f) = .ok b) : ∃ a, x = .ok a ∧ f a = .ok b := by
  cases x with
  | ok a => exact ⟨a, rfl, h⟩
  | err e => exact Outcome.noConfusion h
  | panicked m => exact Outcome.noConfusion h
  | unhandled m => exact Outcome.noConfusion h
  | fuelOut => exact Outcome.noConfusion h

theorem literal_fuel_pos {fuel : Nat} {p : Parser} {x : Expr × Parser}
    (h : Parser.literal fuel p = .ok x) : ∃ f, fuel = f + 1 := by
  cases fuel with
  | zero => exact absurd h (by simp [Parser.literal])
  | succ f => exact ⟨f, rfl⟩

theorem expression_succ (f : Nat) (prec : Precedence) (p : Parser) :
    Parser.expression (f + 1) prec p
      = Outcome.bind (Parser.literal f p) (fun x => Parser.exprLoop f prec x.1 x.2) := rfl

/-- With the minimum precedence `End`, the climbing loop of
`Parser::expression` never iterates: its condition
`prec() >= End && prec() != End` is unsatisfiable (it only evaluates
`prec()`, which may still panic). -/
theorem exprLoop_end (f : Nat) (l : Expr) (p : Parser) (q : Precedence)
    (hq : Parser.prec p = .ok q) :
    Parser.exprLoop (f + 1) .end_ l p = .ok (l, p) := by
  have hcond : ¬ (q.ge .end_ = true ∧ q.eq .end_ = false) := by
    cases q <;> simp [Precedence.ge, Precedence.eq, Precedence.toNat]
  simp [Parser.exprLoop, hq, Outcome.bind_ok, hcond]

theorem netEffect_append (xs ys : List Instruction) :
    netEffect (xs ++ ys) = netEffect xs + netEffect ys := by
  simp [netEffect]

theorem indexOk_mono {n m : Nat} (h : n ≤ m) {i : Instruction}
    (hi : Instruction.indexOk n i = true) : Instruction.indexOk m i = true := by
  cases i <;> simp [Instruction.indexOk] at hi ⊢ <;> omega

theorem all_indexOk_mono {n m : Nat} (h : n ≤ m) {code : List Instruction}
    (hc : code.all (Instruction.indexOk n) = true) :
    code.all (Instruction.indexOk m) = true := by
  simp only [List.all_eq_true] at hc ⊢
  exact fun i hi => indexOk_mono h (hc i hi)

theorem emits_refl (c : Chunk) : emits c c 0 :=
  ⟨⟨[], by simp⟩, [], by simp [netEffect]⟩

theorem emits_trans {c1 c2 c3 : Chunk} {a b : Int}
    (h1 : emits c1 c2 a) (h2 : emits c2 c3 b) : emits c1 c3 (a + b) := by
  obtain ⟨⟨e1, hv1⟩, code1, hi1, hn1, hh1, hk1⟩ := h1
  obtain ⟨⟨e2, hv2⟩, code2, hi2, hn2, hh2, hk2⟩ := h2
  have hlen : c2.vars.length ≤ c3.vars.length := by
    rw [hv2]; simp
  refine ⟨⟨e1 ++ e2, by rw [hv2, hv1, List.append_assoc]⟩,
    code1 ++ code2, by rw [hi2, hi1, List.append_assoc], ?_, ?_, ?_⟩
  · rw [netEffect_append, hn1, hn2]
  · simp only [List.all_append, Bool.and_eq_true]
    exact ⟨hh1, hh2⟩
  · simp only [List.all_append, Bool.and_eq_true]
    exact ⟨all_indexOk_mono hlen hk1, hk2⟩

theorem emits_emit {c : Chunk} {i : Instruction}
    (hok : Instruction.indexOk c.vars.length i = true) (hhalt : i.isHalt = false) :
    emits c (Compiler.emitInst c i) i.stackEffect := by
  refine ⟨⟨[], by simp [Compiler.emitInst]⟩, [i], by simp [Compiler.emitInst], ?_, ?_, ?_⟩
  · simp [netEffect]
  · simp [hhalt]
  · simp [Compiler.emitInst, hok]

theorem emits_addVar (c : Chunk) (s : String) :
    emits c (c.addVariable s).2 0 := by
  refine ⟨⟨[s], by simp [Chunk.addVariable]⟩, [], by simp [Chunk.addVariable, netEffect]⟩

theorem emits_congr {c c' : Chunk} {a b : Int} (hab : a = b) (h : emits c c' a) :
    emits c c' b := hab ▸ h

/-- Whenever `Compiler::expr` succeeds, it appends halt-free code whose
net simulated stack effect equals the expression's leaf count, every
emitted name-table index in bounds. -/
theorem compileExpr_spec : ∀ (n : Nat) (e : Expr), e.csize ≤ n → ∀ c c' : Chunk,
    Compiler.compileExpr c e = .ok c' → emits c c' (e.leafCount : Int) := by
  intro n
  induction n with
  | zero =>
    intro e hs
    exact absurd hs (by cases e <;> simp [Expr.csize])
  | succ n ih =>
    intro e hs c c' h
    cases e with
    | literal l =>
      cases l <;> simp [Compiler.compileExpr] at h <;> subst h
      · refine emits_congr ?_ (emits_emit (i := Instruction.integer _) rfl rfl)
        simp [Expr.leafCount, Instruction.stackEffect, Instruction.integer]
      · refine emits_congr ?_ (emits_emit (i := .loadNil) rfl rfl)
        simp [Expr.leafCount, Instruction.stackEffect]
    | identifier name =>
      simp [Compiler.compileExpr, Chunk.addVariable] at h
      subst h
      refine emits_congr ?_
        (emits_trans (emits_addVar c name) (emits_emit (i := .getGlobal c.vars.length) ?_ rfl))
      · simp [Expr.leafCount, Instruction.stackEffect]
      · simp [Chunk.addVariable, Instruction.indexOk]
    | binExpr op l r =>
      simp only [Compiler.compileExpr] at h
      obtain ⟨c1, h1, h⟩ := Outcome.bind_eq_ok h
      obtain ⟨c2, h2, h⟩ := Outcome.bind_eq_ok h
      simp only [Outcome.ok.injEq] at h
      subst h
      have hl : l.csize ≤ n := by simp [Expr.csize] at hs; omega
      have hr : r.csize ≤ n := by simp [Expr.csize] at hs; omega
      refine emits_congr ?_ (emits_trans (emits_trans (ih l hl c c1 h1) (ih r hr c1 c2 h2))
        (emits_emit (i := .call) rfl rfl))
      simp [Expr.leafCount, Instruction.stackEffect]
    | unaryExpr op v =>
      simp [Compiler.compileExpr] at h
    | call callee args =>
      simp only [Compiler.compileExpr] at h
      obtain ⟨c1, h1, h⟩ := Outcome.bind_eq_ok h
      simp only [Outcome.ok.injEq] at h
      subst h
      have hc : callee.csize ≤ n := by simp [Expr.csize] at hs; omega
      refine emits_congr ?_ (emits_trans (ih callee hc c c1 h1) (emits_emit (i := .call) rfl rfl))
      simp [Expr.leafCount, Instruction.stackEffect]
    | dot o property =>
      simp only [Compiler.compileExpr] at h
      obtain ⟨c1, h1, h⟩ := Outcome.bind_eq_ok h
      have ho : o.csize ≤ n := by simp [Expr.csize] at hs; omega
      have hemits := ih o ho c c1 h1
      cases property <;> simp only [Chunk.addVariable, Outcome.ok.injEq] at h <;> subst h
      case identifier name =>
        refine emits_congr ?_
          (emits_trans hemits
            (emits_trans (emits_addVar c1 name)
              (emits_emit (i := .getProperty c1.vars.length) ?_ rfl)))
        · simp [Expr.leafCount, Instruction.stackEffect]
        · simp [Chunk.addVariable, Instruction.indexOk]
      all_goals refine emits_congr ?_ hemits
      all_goals simp [Expr.leafCount]

/-- Whenever one top-level statement compiles, it appends halt-free,
index-in-bounds code of net simulated stack effect `Stmt.netSpec`. -/
theorem compileStmt_spec (s : Stmt) (c c' : Chunk)
    (h : Compiler.compileStmt c s = .ok c') : emits c c' s.netSpec := by
  cases s with
  | classDecl name =>
    simp [Compiler.compileStmt, Chunk.addVariable] at h
    subst h
    refine emits_congr ?_
      (emits_trans (emits_addVar c name)
        (emits_trans (emits_emit (i := .classI c.vars.length) ?_ rfl)
          (emits_emit (i := .defineGlobal c.vars.length) ?_ rfl)))
    · simp [Stmt.netSpec, Instruction.stackEffect]
    · simp [Chunk.addVariable, Instruction.indexOk]
    · simp [Chunk.addVariable, Compiler.emitInst, Instruction.indexOk]
  | varDecl id init =>
    simp only [Compiler.compileStmt] at h
    obtain ⟨c1, h1, h⟩ := Outcome.bind_eq_ok h
    simp only [Chunk.addVariable, Outcome.ok.injEq] at h
    subst h
    refine emits_congr ?_
      (emits_trans (compileExpr_spec init.csize init le_rfl c c1 h1)
        (emits_trans (emits_addVar c1 id)
          (emits_emit (i := .defineGlobal c1.vars.length) ?_ rfl)))
    · simp [Stmt.netSpec, Instruction.stackEffect]
      omega
    · simp [Chunk.addVariable, Instruction.indexOk]
  | exprStmt e =>
    simp only [Compiler.compileStmt] at h
    obtain ⟨c1, h1, h⟩ := Outcome.bind_eq_ok h
    simp only [Outcome.ok.injEq] at h
    subst h
    refine emits_congr ?_
      (emits_trans (compileExpr_spec e.csize e le_rfl c c1 h1)
        (emits_emit (i := .pop) rfl rfl))
    simp [Stmt.netSpec, Instruction.stackEffect]
    omega

/-- The statement loop of `Compiler::run` appends, per statement, a
halt-free code block of net simulated effect `Stmt.netSpec`. -/
theorem runStmts_spec : ∀ (stmts : List Stmt) (c c' : Chunk),
    Compiler.runStmts c stmts = .ok c' →
    emits c c' (stmts.map Stmt.netSpec).sum ∧
    ∃ codes : List (List Instruction),
      codes.length = stmts.length ∧
      c'.instructions = c.instructions ++ codes.flatten ∧
      ∀ pr ∈ stmts.zip codes, netEffect pr.2 = pr.1.netSpec := by
  intro stmts
  induction stmts with
  | nil =>
    intro c c' h
    simp [Compiler.runStmts] at h
    subst h
    refine ⟨emits_congr ?_ (emits_refl _), [], by simp, by simp, by simp⟩
    simp
  | cons s rest ihr =>
    intro c c' h
    simp only [Compiler.runStmts] at h
    obtain ⟨c1, h1, h2⟩ := Outcome.bind_eq_ok h
    have hstmt := compileStmt_spec s c c1 h1
    obtain ⟨hall, codes, hlen, hinstr, hzip⟩ := ihr c1 c' h2
    refine ⟨emits_congr (by simp) (emits_trans hstmt hall), ?_⟩
    obtain ⟨_, code0, hi0, hn0, _, _⟩ := hstmt
    refine ⟨code0 :: codes, by simp [hlen], ?_, ?_⟩
    · rw [hinstr, hi0]
      simp
    · intro pr hpr
      rw [List.zip_cons_cons] at hpr
      rcases List.mem_cons.mp hpr with h | h
      · subst h
        exact hn0
      · exact hzip pr h

/-! ## Theorems for the claims -/

/-- C1: the claim says executing `"class Bird {}"` via `exec` succeeds
and binds the global `Bird` to a Class named `"Bird"`.  On the code it
fails: `Lexer::next_token` hits `todo!()` on the letter `c` (identifiers
and keywords are not lexed), so `exec` panics at the scan stage; and even
on the chunk the compiler produces for the class declaration — which
does emit `Class(0)` then `DefineGlobal(0)` — `Vm::run` has no match arm
for either instruction (its `match` is non-exhaustive), so the VM cannot
execute them.  This contradicts the crate's own doctest
(`assert_eq!(thrush.exec("class Pie {}"), Ok(()))` in `lib.rs`) and
`main.rs`, so it is a code bug. -/
theorem C1_classBird_exec_fails :
    exec trivialHost State.new "class Bird {}" = .panicked "not yet implemented"
    ∧ Compiler.run ⟨[Stmt.classDecl "Bird"]⟩
        = .ok ⟨[.classI 0, .defineGlobal 0, .halt], ["Bird"]⟩
    ∧ Vm.execute trivialHost ⟨[.classI 0, .defineGlobal 0, .halt], ["Bird"]⟩
        ⟨[], State.new⟩
        = .unhandled "Class: no arm in the match of Vm::run" :=
  ⟨rfl, rfl, rfl⟩

/-- C2 counterexample: the claim says the net simulated stack effect of
every compiled top-level statement (including the trailing `Pop` of an
expression statement) is zero.  The expression statement `1 + 2`
compiles to `Push 1; Push 2; Call; Pop` whose net effect is `+1`, not
zero: `Call` pops only the callee and pushes one result, so each binary
operator leaves one operand behind. -/
theorem C2_counterexample :
    Compiler.run
        ⟨[Stmt.exprStmt (.binExpr .add (.literal (.integer 1)) (.literal (.integer 2)))]⟩
      = .ok ⟨[.push (.integer 1), .push (.integer 2), .call, .pop, .halt], []⟩
    ∧ netEffect [.push (.integer 1), .push (.integer 2), .call, .pop] ≠ 0 :=
  ⟨rfl, by decide⟩

/-- C2 (amended): every chunk the compiler produces ends in exactly one
`Halt`; the net simulated stack effect of each compiled top-level
statement is `Stmt.netSpec` — `0` for a class declaration and
`leafCount − 1` for a var/expression statement — which is zero exactly
when the expression has a single literal/identifier leaf, and `+k` for
an expression containing `k` binary operators (`Call` is net 0, popping
one value and pushing one). -/
theorem C2_halt_and_statement_effects (ast : Ast) (c : Chunk)
    (h : Compiler.run ast = .ok c) :
    (c.instructions.countP Instruction.isHalt = 1 ∧
     c.instructions.getLast? = some .halt) ∧
    ∃ codes : List (List Instruction),
      c.instructions = codes.flatten ++ [.halt] ∧
      codes.length = ast.nodes.length ∧
      ∀ pr ∈ ast.nodes.zip codes, netEffect pr.2 = pr.1.netSpec := by
  simp only [Compiler.run] at h
  obtain ⟨c1, h1, h⟩ := Outcome.bind_eq_ok h
  simp only [Outcome.ok.injEq] at h
  subst h
  obtain ⟨⟨_, code, hi, hn, hh, _⟩, codes, hlen, hinstr, hzip⟩ :=
    runStmts_spec ast.nodes Chunk.new c1 h1
  have hic : c1.instructions = code := by simpa [Chunk.new] using hi
  have hicf : c1.instructions = codes.flatten := by simpa [Chunk.new] using hinstr
  have h0 : c1.instructions.countP Instruction.isHalt = 0 := by
    rw [hic, List.countP_eq_zero]
    intro a ha
    have := (List.all_eq_true.mp hh) a ha
    simpa using this
  refine ⟨⟨?_, ?_⟩, codes, ?_, hlen, hzip⟩
  · simp [Compiler.emitInst, List.countP_append, h0, Instruction.isHalt]
  · simp [Compiler.emitInst]
  · simp [Compiler.emitInst, hicf]

/-- C2 witness: the amended theorem instantiated on the program
`class Bird {} ; 1`. -/
theorem C2_halt_and_statement_effects_witness :
    Compiler.run c2wAst = .ok c2wChunk
    ∧ ((c2wChunk.instructions.countP Instruction.isHalt = 1 ∧
        c2wChunk.instructions.getLast? = some .halt) ∧
       ∃ codes : List (List Instruction),
         c2wChunk.instructions = codes.flatten ++ [.halt] ∧
         codes.length = c2wAst.nodes.length ∧
         ∀ pr ∈ c2wAst.nodes.zip codes, netEffect pr.2 = pr.1.netSpec) :=
  ⟨rfl, C2_halt_and_statement_effects c2wAst c2wChunk rfl⟩

/-- C3 counterexample: the claim says a `GetGlobal` on a name absent
from the global table fails with a NameError returned as an error value,
never a crash.  In the code `State::get` calls
`.expect("cannot find name in this scope.")`, so the lookup panics
instead of returning an error value. -/
theorem C3_counterexample :
    Vm.execute trivialHost ⟨[.getGlobal 0, .halt], ["x"]⟩ ⟨[], State.new⟩
      = .panicked "cannot find name in this scope." :=
  rfl

/-- C3 (amended): executing `GetGlobal i` pushes the bound value when
the name at index `i` is present in the global table, and otherwise
panics via `expect` inside `State::get` (it does not return a NameError
error value). -/
theorem C3_getGlobal (host : Host) (chunk : Chunk) (fuel ip i : Nat) (st : VmSt)
    (name : String)
    (hinst : chunk.instructions[ip]? = some (.getGlobal i))
    (hname : chunk.vars[i]? = some name) :
    (lookupGlobal st.state.globals name = Option.none →
      Vm.run host chunk (fuel + 1) ip st = .panicked "cannot find name in this scope.")
    ∧ ∀ v, lookupGlobal st.state.globals name = some v →
      Vm.run host chunk (fuel + 1) ip st
        = Vm.run host chunk fuel (ip + 1) { st with stack := v :: st.stack } := by
  constructor
  · intro hmiss
    simp [Vm.run, hinst, hname, State.get, hmiss, Outcome.bind_panicked]
  · intro v hv
    simp [Vm.run, hinst, hname, State.get, hv, Outcome.bind_ok]

/-- C3 witness: the amended theorem instantiated on a one-instruction
chunk, once with an empty global table and once with `x` bound. -/
theorem C3_getGlobal_witness :
    c3wChunk.instructions[0]? = some (.getGlobal 0)
    ∧ c3wChunk.vars[0]? = some "x"
    ∧ lookupGlobal State.new.globals "x" = Option.none
    ∧ Vm.run trivialHost c3wChunk 2 0 ⟨[], State.new⟩
        = .panicked "cannot find name in this scope."
    ∧ lookupGlobal c3wState.globals "x" = some (.integer 7)
    ∧ Vm.run trivialHost c3wChunk 2 0 ⟨[], c3wState⟩
        = Vm.run trivialHost c3wChunk 1 1 ⟨[.integer 7], c3wState⟩ :=
  ⟨rfl, rfl, rfl,
    (C3_getGlobal trivialHost c3wChunk 1 0 0 ⟨[], State.new⟩ "x" rfl rfl).1 rfl,
    rfl,
    (C3_getGlobal trivialHost c3wChunk 1 0 0 ⟨[], c3wState⟩ "x" rfl rfl).2 (.integer 7) rfl⟩

/-- C4 counterexample: the claim says `GetProperty` on a non-Instance
fails with a typed TypeError (never a silent continuation) and on an
Instance without the method fails with a typed NoSuchMethod (never a
panic).  In the code the `if let Value::Instance` has no else branch, so
popping the integer `1` silently succeeds with nothing pushed; and
`Instance::bind` `.unwrap()`s the method lookup, so a missing method
panics. -/
theorem C4_counterexample :
    Vm.opGetProp ⟨[], ["x"]⟩ ⟨[.integer 1], State.new⟩ 0 = .ok ⟨[], State.new⟩
    ∧ Instance.bind (ClassDat.new "Bird") [] "x"
        = .panicked "called Option::unwrap on a None value" :=
  ⟨rfl, rfl⟩

/-- C4 (amended): `GetProperty(i)` pops the top value; if it is not an
Instance the instruction silently succeeds having pushed nothing (no
TypeError); if it is an Instance whose class lacks the method named at
`i`, `Instance::bind` panics on `unwrap` (no typed NoSuchMethod); and if
the method resolves, a `BoundMethod` pairing the instance with it is
pushed. -/
theorem C4_getProperty (chunk : Chunk) (st : VmSt) (i : Nat) :
    (∀ v rest, st.stack = v :: rest → v.isInstance = false →
      Vm.opGetProp chunk st i = .ok { st with stack := rest })
    ∧ (∀ cls fields rest name, st.stack = .instanceV cls fields :: rest →
        chunk.vars[i]? = some name →
        lookupMethod cls.methods name = Option.none →
        Vm.opGetProp chunk st i = .panicked "called Option::unwrap on a None value")
    ∧ (∀ cls fields rest name m, st.stack = .instanceV cls fields :: rest →
        chunk.vars[i]? = some name →
        lookupMethod cls.methods name = some m →
        Vm.opGetProp chunk st i
          = .ok { st with stack := .methodV cls fields m :: rest }) := by
  refine ⟨?_, ?_, ?_⟩
  · intro v rest hst hv
    cases v <;> simp [Value.isInstance] at hv <;>
      simp [Vm.opGetProp, hst, Stack.pop, Outcome.bind_ok]
  · intro cls fields rest name hst hname hlook
    simp [Vm.opGetProp, hst, Stack.pop, hname, Instance.bind, hlook, Outcome.bind_ok,
      Outcome.bind_panicked]
  · intro cls fields rest name m hst hname hlook
    simp [Vm.opGetProp, hst, Stack.pop, hname, Instance.bind, hlook, Outcome.bind_ok]

/-- C4 witness: the amended theorem instantiated on an integer receiver,
a missing method, and a registered method. -/
theorem C4_getProperty_witness :
    (Value.integer 9).isInstance = false
    ∧ Vm.opGetProp c3wChunk ⟨[.integer 9], State.new⟩ 0 = .ok ⟨[], State.new⟩
    ∧ lookupMethod c4wClass.methods "x" = Option.none
    ∧ Vm.opGetProp c3wChunk ⟨[.instanceV c4wClass []], State.new⟩ 0
        = .panicked "called Option::unwrap on a None value"
    ∧ lookupMethod c4wClass.methods "sound" = some (InstanceFun.mk "sound" 5)
    ∧ Vm.opGetProp ⟨[.getProperty 0, .halt], ["sound"]⟩
        ⟨[.instanceV c4wClass []], State.new⟩ 0
        = .ok ⟨[.methodV c4wClass [] (InstanceFun.mk "sound" 5)], State.new⟩ :=
  ⟨rfl,
    (C4_getProperty c3wChunk ⟨[.integer 9], State.new⟩ 0).1 (.integer 9) [] rfl rfl,
    rfl,
    (C4_getProperty c3wChunk ⟨[.instanceV c4wClass []], State.new⟩ 0).2.1 c4wClass [] [] "x"
      rfl rfl rfl,
    rfl,
    (C4_getProperty ⟨[.getProperty 0, .halt], ["sound"]⟩
        ⟨[.instanceV c4wClass []], State.new⟩ 0).2.2 c4wClass [] [] "sound"
      (InstanceFun.mk "sound" 5) rfl rfl rfl⟩

/-- C5 counterexample: the claim says a prefix operator greedily
consumes the entire rest of the expression, e.g. `"-1 + 2"` parses as
`Unary(Sub, Add(1, 2))`.  In the code the operand of a prefix operator
is parsed at `Precedence::End`, the *highest* bound, so `"-1 + 2"`
parses as `Add(Unary(Sub, 1), 2)` instead. -/
theorem C5_counterexample :
    Lexer.tokenize "-1 + 2"
      = .ok [Token.new .hypen, Token.new (.literal (.integer 1)), Token.new .plus,
             Token.new (.literal (.integer 2)), Token.new .eof]
    ∧ Parser.parseAst
        [Token.new .hypen, Token.new (.literal (.integer 1)), Token.new .plus,
         Token.new (.literal (.integer 2)), Token.new .eof]
      = .ok ⟨[.exprStmt (.binExpr .add (.unaryExpr .sub (.literal (.integer 1)))
              (.literal (.integer 2)))]⟩
    ∧ Parser.parseAst
        [Token.new .hypen, Token.new (.literal (.integer 1)), Token.new .plus,
         Token.new (.literal (.integer 2)), Token.new .eof]
      ≠ .ok ⟨[.exprStmt (.unaryExpr .sub (.binExpr .add (.literal (.integer 1))
              (.literal (.integer 2))))]⟩ := by
  refine ⟨rfl, rfl, fun h => ?_⟩
  rw [show Parser.parseAst
        [Token.new .hypen, Token.new (.literal (.integer 1)), Token.new .plus,
         Token.new (.literal (.integer 2)), Token.new .eof]
      = .ok ⟨[.exprStmt (.binExpr .add (.unaryExpr .sub (.literal (.integer 1)))
              (.literal (.integer 2)))]⟩ from rfl] at h
  simp at h

/-- C5 (amended): a prefix operator (`-`, `+`, `!`) produces a unary
node whose operand is parsed at the *highest* precedence bound
(`Precedence::End`), under which the climbing loop never iterates, so
the operand is exactly the single primary term returned by
`Parser::literal` — the prefix operator binds to one primary, not to the
rest of the expression. -/
theorem C5_prefix_binds_primary (fuel : Nat) (p : Parser) (k : TokenKind) (op : BinOp)
    (e : Expr) (p₁ : Parser) (q : Precedence)
    (hk : p.current.kind = k) (hop : prefixRule k = some op)
    (hlit : Parser.literal fuel p.consume = .ok (e, p₁))
    (hprec : Parser.prec p₁ = .ok q) :
    Parser.literal (fuel + 2) p = .ok (.unaryExpr op e, p₁) := by
  obtain ⟨f, rfl⟩ := literal_fuel_pos hlit
  have hexp : Parser.expression (f + 2) .end_ p.consume = .ok (e, p₁) := by
    rw [show f + 2 = (f + 1) + 1 from rfl, expression_succ, hlit]
    show Parser.exprLoop (f + 1) .end_ e p₁ = .ok (e, p₁)
    exact exprLoop_end f e p₁ q hprec
  cases k <;> simp [prefixRule] at hop
  all_goals subst hop
  all_goals rw [show f + 1 + 2 = (f + 2) + 1 from rfl]
  all_goals simp [Parser.literal, hk, hexp, Outcome.bind_ok]

/-- C5 witness: the amended theorem instantiated on the token stream of
`"-1 + 2"`: the operand of the leading `-` is just the literal `1`. -/
theorem C5_prefix_binds_primary_witness :
    (⟨[Token.new .hypen, Token.new (.literal (.integer 1)), Token.new .plus,
       Token.new (.literal (.integer 2)), Token.new .eof],
      Token.new .hypen, 0⟩ : Parser).current.kind = .hypen
    ∧ prefixRule .hypen = some .sub
    ∧ Parser.literal 3
        (⟨[Token.new .hypen, Token.new (.literal (.integer 1)), Token.new .plus,
           Token.new (.literal (.integer 2)), Token.new .eof],
          Token.new .hypen, 0⟩ : Parser).consume
      = .ok (.literal (.integer 1),
          ⟨[Token.new .hypen, Token.new (.literal (.integer 1)), Token.new .plus,
            Token.new (.literal (.integer 2)), Token.new .eof],
           Token.new .plus, 2⟩)
    ∧ Parser.literal 5
        (⟨[Token.new .hypen, Token.new (.literal (.integer 1)), Token.new .plus,
           Token.new (.literal (.integer 2)), Token.new .eof],
          Token.new .hypen, 0⟩ : Parser)
      = .ok (.unaryExpr .sub (.literal (.integer 1)),
          ⟨[Token.new .hypen, Token.new (.literal (.integer 1)), Token.new .plus,
            Token.new (.literal (.integer 2)), Token.new .eof],
           Token.new .plus, 2⟩) :=
  ⟨rfl, rfl, rfl, C5_prefix_binds_primary 3 _ .hypen .sub _ _ .sum rfl rfl rfl rfl⟩

set_option maxHeartbeats 2000000 in
/-- C6: two chained infix operators of the same precedence tier parse
left-associatively — the right-hand side is parsed at the operator's
precedence plus one (`Precedence::left`), so `a op1 b op2 c` groups as
`(a op1 b) op2 c` for every pair of same-tier operators and all integer
literals. -/
theorem C6_left_assoc (a b c : Int) (k1 k2 : TokenKind) (o1 o2 : BinOp)
    (p : Precedence)
    (h1 : infixRule k1 = some (o1, p)) (h2 : infixRule k2 = some (o2, p)) :
    Parser.parseAst
        [Token.new (.literal (.integer a)), Token.new k1,
         Token.new (.literal (.integer b)), Token.new k2,
         Token.new (.literal (.integer c)), Token.new .eof]
      = .ok ⟨[.exprStmt (.binExpr o2
          (.binExpr o1 (.literal (.integer a)) (.literal (.integer b)))
          (.literal (.integer c)))]⟩ := by
  cases k1 <;> simp [infixRule] at h1 <;>
    obtain ⟨rfl, rfl⟩ := h1 <;>
    cases k2 <;> simp [infixRule] at h2 <;>
    obtain ⟨rfl, rfl⟩ := h2 <;> rfl

/-- C6 witness: `"1 - 2 - 3"` parses as `Sub(Sub(1, 2), 3)`. -/
theorem C6_left_assoc_witness :
    Lexer.tokenize "1 - 2 - 3"
      = .ok [Token.new (.literal (.integer 1)), Token.new .hypen,
             Token.new (.literal (.integer 2)), Token.new .hypen,
             Token.new (.literal (.integer 3)), Token.new .eof]
    ∧ infixRule .hypen = some (.sub, .sum)
    ∧ Parser.parseAst
        [Token.new (.literal (.integer 1)), Token.new .hypen,
         Token.new (.literal (.integer 2)), Token.new .hypen,
         Token.new (.literal (.integer 3)), Token.new .eof]
      = .ok ⟨[.exprStmt (.binExpr .sub
          (.binExpr .sub (.literal (.integer 1)) (.literal (.integer 2)))
          (.literal (.integer 3)))]⟩ :=
  ⟨rfl, rfl, C6_left_assoc 1 2 3 .hypen .hypen .sub .sub .sum rfl rfl⟩

/-- C7: the claim says every pipeline-stage failure of `exec` is
returned to the host as an `Err` — never a panic.  In the code a VM
error is `.unwrap()`ed inside `_exec` (script `"1()"`: calling the
non-callable integer `1` produces a `VmError` that is unwrapped into a
panic), and a scan-stage failure is a `todo!()` panic in the lexer
(script `"a"`, even with a prior global defined), contradicting the
documented contract of `Thrush::exec` ("This function will return an
error if there are any lexical or semanitic errors in the scipt"). -/
theorem C7_exec_failure_panics :
    exec trivialHost State.new "1()" = .panicked "'1' is not callable"
    ∧ exec trivialHost (State.add State.new "x" (.integer 34)) "a"
        = .panicked "not yet implemented" :=
  ⟨rfl, rfl⟩

/-- C8: method dispatch re-resolves by name from the class's current
method table: binding before `add_method` resolves the old function, and
after the host replaces the method for `n` (even though the instance and
a bound method for `n` already existed), binding and invoking `n`
resolve and run the newly registered function `gid`. -/
theorem C8_dispatch (host : Host) (cls : ClassDat) (fields : List Value)
    (n : String) (fOld : InstanceFun) (gid : Nat)
    (hold : lookupMethod cls.methods n = some fOld) :
    Instance.bind cls fields n = .ok (cls, fields, fOld)
    ∧ lookupMethod (cls.addMethod n gid).methods n = some (InstanceFun.mk n gid)
    ∧ Instance.bind (cls.addMethod n gid) fields n
        = .ok (cls.addMethod n gid, fields, InstanceFun.mk n gid)
    ∧ Instance.invoke host (cls.addMethod n gid) fields n
        = .ok (host gid (cls.addMethod n gid) fields []) := by
  have hl : lookupMethod (cls.addMethod n gid).methods n = some (InstanceFun.mk n gid) := by
    simp [ClassDat.addMethod, lookupMethod]
  refine ⟨?_, hl, ?_, ?_⟩
  · simp [Instance.bind, hold]
  · simp [Instance.bind, hl]
  · simp [Instance.invoke, Instance.bind, hl, BoundMethod.call, Outcome.bind_ok]

/-- C8 witness: replacing `sound` (function id 5) with function id 9 on
a class makes binding and invoking `sound` resolve id 9. -/
theorem C8_dispatch_witness :
    lookupMethod c4wClass.methods "sound" = some (InstanceFun.mk "sound" 5)
    ∧ (Instance.bind c4wClass [] "sound" = .ok (c4wClass, [], InstanceFun.mk "sound" 5)
      ∧ lookupMethod (c4wClass.addMethod "sound" 9).methods "sound"
          = some (InstanceFun.mk "sound" 9)
      ∧ Instance.bind (c4wClass.addMethod "sound" 9) [] "sound"
          = .ok (c4wClass.addMethod "sound" 9, [], InstanceFun.mk "sound" 9)
      ∧ Instance.invoke trivialHost (c4wClass.addMethod "sound" 9) [] "sound"
          = .ok (trivialHost 9 (c4wClass.addMethod "sound" 9) [] [])) :=
  ⟨rfl, C8_dispatch trivialHost c4wClass [] "sound" (InstanceFun.mk "sound" 5) 9 rfl⟩

/-- C9: every name-table index carried by an instruction of a
compiler-produced chunk (`Class`, `DefineGlobal`, `GetGlobal`,
`GetProperty` — and vacuously `SetGlobal`, which is never emitted) is
strictly below the length of the chunk's name table, so the VM's
unchecked `variables[index]` accesses stay in bounds on such chunks. -/
theorem C9_in_bounds (ast : Ast) (c : Chunk) (h : Compiler.run ast = .ok c) :
    c.instructions.all (Instruction.indexOk c.vars.length) = true := by
  simp only [Compiler.run] at h
  obtain ⟨c1, h1, h⟩ := Outcome.bind_eq_ok h
  simp only [Outcome.ok.injEq] at h
  subst h
  obtain ⟨⟨_, code, hi, _, _, hk⟩, _⟩ := runStmts_spec ast.nodes Chunk.new c1 h1
  have hic : c1.instructions = code := by simpa [Chunk.new] using hi
  simp only [Compiler.emitInst, List.all_append, Bool.and_eq_true]
  constructor
  · rw [hic]
    exact hk
  · simp [Instruction.indexOk]

/-- C9 witness: the theorem instantiated on the program `var y = x`,
whose chunk references indices 0 and 1 with a name table of length 2. -/
theorem C9_in_bounds_witness :
    Compiler.run c9wAst = .ok c9wChunk
    ∧ c9wChunk.instructions.all (Instruction.indexOk c9wChunk.vars.length) = true :=
  ⟨rfl, C9_in_bounds c9wAst c9wChunk rfl⟩

/-- C10: in `Parser::class` the two tokens after the class name are
consumed without inspection, so `class IDENT t1 t2` is accepted as a
class declaration for arbitrary tokens `t1`, `t2` — no SyntaxError is
raised for non-brace delimiters.  (The `Eof` terminator is appended to
every stream by `Lexer::tokenize`.) -/
theorem C10_class_consumes_blindly (n : String) (t1 t2 : Token) :
    Parser.parseAst
        [Token.new (.keyword .kwClass), Token.new (.ident n), t1, t2, Token.new .eof]
      = .ok ⟨[.classDecl n]⟩ :=
  rfl

end Thrush
